import Mathlib

/-!
Shallow embedding of the ArbiSim cross-venue arbitrage engine
(`include/arbisim_core.h` and `include/risk_management.h`).

Modelling conventions:
- C++ `double` values are modelled as exact rationals (`ℚ`).
- Wall-clock timestamp fields (`timestamp_ns`, `detected_at_ns`, `latency_ns`,
  `last_update_ns`) are omitted: they are taken from the system clock and never
  feed back into any control flow verified here.
- Human-readable `reason` strings, the `status` string (always `"simulated"`),
  and debug printing are omitted for the same reason.
- The `unordered_map`s are modelled as association lists; the mutexes and
  atomics disappear because every verified operation runs under the single
  `risk_mutex_` (or on the single writer thread of a book side), so the
  sequential function on the state is the synchronized semantics.
-/

namespace ArbiSim

/-- The `MAX_LEVELS` depth bound of `FastOrderBook`. -/
def MAX_LEVELS : Nat := 10

/-- `PriceLevel` from `arbisim_core.h` (timestamp omitted). -/
structure PriceLevel where
  price : ℚ
  quantity : ℚ
  deriving DecidableEq

/-- A `FastOrderBook`: the two `BookSide`s as the lists of levels in
positions `[0, count)` of the backing array. -/
structure Book where
  bids : List PriceLevel
  asks : List PriceLevel
  deriving DecidableEq

/-- The prices of a side, in level order. -/
def prices (ls : List PriceLevel) : List ℚ := ls.map PriceLevel.price

/-- Outcome of the linear scan in `FastOrderBook::update_bid` / `update_ask`:
either an existing level was overwritten (`found`), or an insertion point was
hit and the new level spliced in (`ins`, before capacity truncation), or the
scan fell through (`miss`). -/
inductive ScanOut where
  | found (levels : List PriceLevel)
  | ins (levels : List PriceLevel)
  | miss
  deriving DecidableEq

instance : DecidableRel ((· > ·) : ℚ → ℚ → Prop) := fun a b => inferInstanceAs (Decidable (b < a))

instance : DecidableRel ((· < ·) : ℚ → ℚ → Prop) := fun a b => inferInstanceAs (Decidable (a < b))

/-- The linear scan of `update_bid`/`update_ask` over one side.
`r new old` holds when the new price sorts strictly before the existing level
price (bids: `old < new`; asks: `old > new`), matching the two mirrored
branch conditions in the source. -/
def sideScan (r : ℚ → ℚ → Prop) [DecidableRel r] (price quantity : ℚ) :
    List PriceLevel → ScanOut
  | [] => ScanOut.miss
  | l :: ls =>
    if l.price = price then
      ScanOut.found ({ price := price, quantity := quantity } :: ls)
    else if r price l.price then
      ScanOut.ins ({ price := price, quantity := quantity } :: l :: ls)
    else
      match sideScan r price quantity ls with
      | ScanOut.found t => ScanOut.found (l :: t)
      | ScanOut.ins t => ScanOut.ins (l :: t)
      | ScanOut.miss => ScanOut.miss

/-- One `update_bid`/`update_ask` call on a side: overwrite an existing level,
or insert at the scan position (the shift loop drops the deepest level when the
side is full, hence the `take MAX_LEVELS`), or append at the end when there is
room, or silently drop the update. -/
def sideUpdate (r : ℚ → ℚ → Prop) [DecidableRel r] (price quantity : ℚ)
    (ls : List PriceLevel) : List PriceLevel :=
  match sideScan r price quantity ls with
  | ScanOut.found t => t
  | ScanOut.ins t => t.take MAX_LEVELS
  | ScanOut.miss =>
    if ls.length < MAX_LEVELS then ls ++ [{ price := price, quantity := quantity }] else ls

/-- `FastOrderBook::update_bid`. -/
def Book.update_bid (b : Book) (price quantity : ℚ) : Book :=
  { b with bids := sideUpdate (· > ·) price quantity b.bids }

/-- `FastOrderBook::update_ask`. -/
def Book.update_ask (b : Book) (price quantity : ℚ) : Book :=
  { b with asks := sideUpdate (· < ·) price quantity b.asks }

/-- A freshly constructed `FastOrderBook`: both sides empty. -/
def Book.empty : Book := { bids := [], asks := [] }

/-- Best bid price: `levels[0].price` when `count > 0`, else the `0.0` sentinel. -/
def bestBid (b : Book) : ℚ :=
  match b.bids with
  | [] => 0
  | l :: _ => l.price

/-- Best ask price: `levels[0].price` when `count > 0`, else the `0.0` sentinel. -/
def bestAsk (b : Book) : ℚ :=
  match b.asks with
  | [] => 0
  | l :: _ => l.price

/-- `FastOrderBook::get_best_bid_ask`. -/
def Book.get_best_bid_ask (b : Book) : ℚ × ℚ := (bestBid b, bestAsk b)

/-- `FastOrderBook::get_spread`. -/
def Book.get_spread (b : Book) : ℚ :=
  if 0 < bestAsk b ∧ 0 < bestBid b then bestAsk b - bestBid b else 0

/-- `FastOrderBook::get_mid_price`. -/
def Book.get_mid_price (b : Book) : ℚ :=
  if 0 < bestAsk b ∧ 0 < bestBid b then (bestAsk b + bestBid b) / 2 else 0

/-- A bid-side or ask-side market update applied to one book. -/
inductive BookOp where
  | bid (price quantity : ℚ)
  | ask (price quantity : ℚ)

/-- Apply one update to a book. -/
def Book.applyOp (b : Book) : BookOp → Book
  | BookOp.bid p q => b.update_bid p q
  | BookOp.ask p q => b.update_ask p q

/-- Apply a sequence of updates to an initially empty book. -/
def Book.applyOps (ops : List BookOp) : Book := ops.foldl Book.applyOp Book.empty

/-- `ArbitrageOpportunity` (timestamps omitted). -/
structure ArbitrageOpportunity where
  symbol : String
  buy_exchange : String
  sell_exchange : String
  buy_price : ℚ
  sell_price : ℚ
  profit_bps : ℚ
  deriving DecidableEq

/-- The `ArbitrageOpportunity` constructor, which computes `profit_bps`. -/
def mkOpportunity (sym buyE sellE : String) (buyP sellP : ℚ) : ArbitrageOpportunity :=
  { symbol := sym, buy_exchange := buyE, sell_exchange := sellE,
    buy_price := buyP, sell_price := sellP,
    profit_bps := (sellP - buyP) / buyP * 10000 }

/-- Association-list lookup, standing in for `unordered_map::find`. -/
def lookupKey {α : Type} (k : String) : List (String × α) → Option α
  | [] => none
  | e :: es => if e.1 = k then some e.2 else lookupKey k es

/-- The `ArbitrageDetector`: the `symbol → exchange → book` registry and the
minimum profit threshold. -/
structure Detector where
  books : List (String × List (String × Book))
  min_profit_bps : ℚ

/-- One directed test inside `check_arbitrage`: buy on venue `a`, sell on
venue `b`; emit when both best prices are positive, the book is crossed, and
the profit in basis points reaches the threshold. -/
def directedCheck (minBps : ℚ) (sym : String) (a b : String × Book) :
    List ArbitrageOpportunity :=
  let ask1 := bestAsk a.2
  let bid2 := bestBid b.2
  if 0 < ask1 ∧ 0 < bid2 ∧ ask1 < bid2 ∧ minBps ≤ (bid2 - ask1) / ask1 * 10000 then
    [mkOpportunity sym a.1 b.1 ask1 bid2]
  else []

/-- The inner loop of `check_arbitrage`: test venue `v` against each later
venue in both directions. -/
def innerPairs (minBps : ℚ) (sym : String) (v : String × Book) :
    List (String × Book) → List ArbitrageOpportunity
  | [] => []
  | w :: ws =>
    directedCheck minBps sym v w ++ directedCheck minBps sym w v ++
      innerPairs minBps sym v ws

/-- The double loop of `check_arbitrage` over all unordered venue pairs. -/
def pairSweep (minBps : ℚ) (sym : String) :
    List (String × Book) → List ArbitrageOpportunity
  | [] => []
  | v :: vs => innerPairs minBps sym v vs ++ pairSweep minBps sym vs

/-- `check_arbitrage` on the venue list of one symbol (after the registry
lookup): fewer than two venues yield no opportunities. -/
def checkVenues (minBps : ℚ) (sym : String) (venues : List (String × Book)) :
    List ArbitrageOpportunity :=
  if venues.length < 2 then [] else pairSweep minBps sym venues

/-- `ArbitrageDetector::check_arbitrage`. -/
def Detector.check_arbitrage (d : Detector) (sym : String) :
    List ArbitrageOpportunity :=
  match lookupKey sym d.books with
  | none => []
  | some venues => checkVenues d.min_profit_bps sym venues

/-- `Position` from `risk_management.h` (timestamp and `unrealized_pnl`,
which is never updated, omitted). -/
structure Position where
  exchange : String
  symbol : String
  quantity : ℚ
  avg_price : ℚ
  deriving DecidableEq

/-- The default-constructed `Position` produced by `positions_[key]` on a
missing key. -/
def Position.default : Position :=
  { exchange := "", symbol := "", quantity := 0, avg_price := 0 }

/-- The per-side fee rate used by `Trade::calculate_fees`. -/
def FEE_RATE : ℚ := 1/1000

/-- `Trade` (timestamp and constant `status` string omitted). -/
structure Trade where
  trade_id : Nat
  symbol : String
  buy_exchange : String
  sell_exchange : String
  quantity : ℚ
  buy_price : ℚ
  sell_price : ℚ
  gross_pnl : ℚ
  fees : ℚ
  net_pnl : ℚ
  deriving DecidableEq

/-- The `Trade` constructor: gross P&L, fees, and net P&L from an opportunity
and a quantity. -/
def mkTrade (id : Nat) (opp : ArbitrageOpportunity) (qty : ℚ) : Trade :=
  let gross := (opp.sell_price - opp.buy_price) * qty
  let fee := (qty * opp.buy_price + qty * opp.sell_price) * FEE_RATE
  { trade_id := id, symbol := opp.symbol, buy_exchange := opp.buy_exchange,
    sell_exchange := opp.sell_exchange, quantity := qty,
    buy_price := opp.buy_price, sell_price := opp.sell_price,
    gross_pnl := gross, fees := fee, net_pnl := gross - fee }

/-- `RiskManager::RiskDecision`. -/
inductive RiskDecision where
  | APPROVED
  | REJECTED_POSITION_LIMIT
  | REJECTED_EXPOSURE_LIMIT
  | REJECTED_TRADE_SIZE
  | REJECTED_PROFIT_TOO_LOW
  | REJECTED_DAILY_LOSS
  | REJECTED_DRAWDOWN
  | REJECTED_EXCHANGE_LIMIT
  deriving DecidableEq

/-- `RiskManager::RiskAssessment` (reason string omitted). -/
structure RiskAssessment where
  decision : RiskDecision
  recommended_size : ℚ
  expected_pnl : ℚ
  fees : ℚ
  net_profit_bps : ℚ
  deriving DecidableEq

/-- The full mutable state of a `RiskManager`: limits, positions keyed by
`exchange ++ "_" ++ symbol`, ledger, P&L accumulators and counters. -/
structure RiskState where
  max_position_size : ℚ
  max_total_exposure : ℚ
  max_single_trade_size : ℚ
  min_profit_after_fees : ℚ
  max_daily_loss : ℚ
  max_drawdown : ℚ
  positions : List (String × Position)
  trade_history : List Trade
  next_trade_id : Nat
  daily_pnl : ℚ
  total_pnl : ℚ
  max_balance : ℚ
  opportunities_seen : Nat
  opportunities_taken : Nat
  opportunities_rejected : Nat
  deriving DecidableEq

/-- A freshly constructed `RiskManager` with the in-class member defaults. -/
def initialRiskState : RiskState :=
  { max_position_size := 2, max_total_exposure := 100000,
    max_single_trade_size := 1/2, min_profit_after_fees := 5,
    max_daily_loss := 2000, max_drawdown := 1/10,
    positions := [], trade_history := [], next_trade_id := 1,
    daily_pnl := 0, total_pnl := 0, max_balance := 10000,
    opportunities_seen := 0, opportunities_taken := 0, opportunities_rejected := 0 }

/-- The body of `RiskManager::update_position` acting on one `Position`
(the entry `positions_[key]`, default-constructed when absent). -/
def positionApply (pos : Position) (exchange symbol : String)
    (quantity price : ℚ) : Position :=
  let pos1 :=
    if pos.exchange = "" then { pos with exchange := exchange, symbol := symbol } else pos
  if (pos1.quantity > 0 ∧ quantity > 0) ∨ (pos1.quantity < 0 ∧ quantity < 0) then
    let total_value := pos1.quantity * pos1.avg_price + quantity * price
    let q := pos1.quantity + quantity
    { pos1 with
      quantity := q
      avg_price := if |q| > 1/1000 then total_value / q else pos1.avg_price }
  else
    let q := pos1.quantity + quantity
    { pos1 with
      quantity := q
      avg_price :=
        if |q| < 1/1000 then 0
        else if (q > 0 ∧ quantity < 0) ∨ (q < 0 ∧ quantity > 0) then price
        else pos1.avg_price }

/-- `unordered_map::operator[]` followed by an in-place mutation: replace the
entry when the key exists, otherwise append a default-constructed entry and
mutate it. -/
def upsertKey (k : String) (f : Position → Position) :
    List (String × Position) → List (String × Position)
  | [] => [(k, f Position.default)]
  | e :: es => if e.1 = k then (k, f e.2) :: es else e :: upsertKey k f es

/-- `RiskManager::update_position`. -/
def update_position (m : List (String × Position)) (exchange symbol : String)
    (quantity price : ℚ) : List (String × Position) :=
  upsertKey (exchange ++ "_" ++ symbol)
    (fun pos => positionApply pos exchange symbol quantity price) m

/-- `RiskManager::calculate_max_size_by_position`. -/
def calculate_max_size_by_position (st : RiskState)
    (opp : ArbitrageOpportunity) : ℚ :=
  let buy_key := opp.buy_exchange ++ "_" ++ opp.symbol
  let sell_key := opp.sell_exchange ++ "_" ++ opp.symbol
  let buy_current :=
    match lookupKey buy_key st.positions with
    | some pos => |pos.quantity|
    | none => 0
  let sell_current :=
    match lookupKey sell_key st.positions with
    | some pos => |pos.quantity|
    | none => 0
  let recommended :=
    min (st.max_position_size - buy_current) (st.max_position_size - sell_current)
  if recommended ≤ 0 then 1/100 else max recommended (1/100)

/-- The hard-coded reference price used to convert dollar exposure to size. -/
def REFERENCE_PRICE : ℚ := 50000

/-- `RiskManager::calculate_max_size_by_exposure`. -/
def calculate_max_size_by_exposure (st : RiskState) : ℚ :=
  let current_exposure := (st.positions.map (fun e => |e.2.quantity * e.2.avg_price|)).sum
  let remaining := st.max_total_exposure - current_exposure
  if remaining ≤ 0 then 1/100
  else max (min (remaining / REFERENCE_PRICE) 10) (1/1000)

/-- `RiskManager::assess_opportunity`: returns the state after the call
(only the opportunity counters change) together with the assessment. -/
def assess_opportunity (st : RiskState) (opp : ArbitrageOpportunity) :
    RiskState × RiskAssessment :=
  let seen := { st with opportunities_seen := st.opportunities_seen + 1 }
  let recommended :=
    min st.max_single_trade_size
      (min (calculate_max_size_by_position st opp) (calculate_max_size_by_exposure st))
  if recommended ≤ 1/1000 then
    (seen, { decision := RiskDecision.REJECTED_TRADE_SIZE, recommended_size := 0,
             expected_pnl := 0, fees := 0, net_profit_bps := 0 })
  else
    let simulated := mkTrade st.next_trade_id opp recommended
    let net_bps := simulated.net_pnl / (recommended * opp.buy_price) * 10000
    if net_bps < st.min_profit_after_fees then
      (seen, { decision := RiskDecision.REJECTED_PROFIT_TOO_LOW, recommended_size := 0,
               expected_pnl := simulated.gross_pnl, fees := simulated.fees,
               net_profit_bps := net_bps })
    else if st.daily_pnl < -st.max_daily_loss then
      (seen, { decision := RiskDecision.REJECTED_DAILY_LOSS, recommended_size := 0,
               expected_pnl := simulated.gross_pnl, fees := simulated.fees,
               net_profit_bps := net_bps })
    else if (st.max_balance - (st.max_balance + st.total_pnl)) / st.max_balance
        > st.max_drawdown then
      (seen, { decision := RiskDecision.REJECTED_DRAWDOWN, recommended_size := 0,
               expected_pnl := simulated.gross_pnl, fees := simulated.fees,
               net_profit_bps := net_bps })
    else
      ({ seen with opportunities_taken := seen.opportunities_taken + 1 },
       { decision := RiskDecision.APPROVED, recommended_size := recommended,
         expected_pnl := simulated.gross_pnl, fees := simulated.fees,
         net_profit_bps := net_bps })

/-- `RiskManager::execute_trade`: book the trade, move both positions, update
the P&L accumulators and the balance high-water mark, and return `true`. -/
def execute_trade (st : RiskState) (opp : ArbitrageOpportunity) (size : ℚ) :
    RiskState × Bool :=
  let trade := mkTrade st.next_trade_id opp size
  let ps1 := update_position st.positions opp.buy_exchange opp.symbol size opp.buy_price
  let ps2 := update_position ps1 opp.sell_exchange opp.symbol (-size) opp.sell_price
  let total := st.total_pnl + trade.net_pnl
  let current_balance := st.max_balance + total
  let maxb := if current_balance > st.max_balance then current_balance else st.max_balance
  ({ st with
     positions := ps2
     daily_pnl := st.daily_pnl + trade.net_pnl
     total_pnl := total
     max_balance := maxb
     trade_history := st.trade_history ++ [trade]
     next_trade_id := st.next_trade_id + 1 }, true)

/-- Venue A book of scenario S4: `bid = 99.90`, `ask = 100.00`. -/
def s4BookA : Book := (Book.empty.update_bid (999/10) 1).update_ask 100 1

/-- Venue B book of scenario S4: `bid = 100.50`, `ask = 100.60`. -/
def s4BookB : Book := (Book.empty.update_bid (201/2) 1).update_ask (503/5) 1

/-- The venue list registered for the traded symbol in scenario S4. -/
def s4Venues : List (String × Book) := [("A", s4BookA), ("B", s4BookB)]

/-- The S4 detector: both venues registered, `min_profit_bps = 5`. -/
def s4Detector : Detector := { books := [("BTC", s4Venues)], min_profit_bps := 5 }

/-- The S4 opportunity: buy on A at 100.00, sell on B at 100.50. -/
def s4Opp : ArbitrageOpportunity := mkOpportunity "BTC" "A" "B" 100 (201/2)

/-- The risk state after executing the S4 opportunity at size 0.1 from the
fresh risk state (scenario S6). -/
def s6Exec : RiskState := (execute_trade initialRiskState s4Opp (1/10)).1

/-- The 11 strictly descending bid updates of scenario S3 (prices 110 down
to 100). -/
def s3Ops : List BookOp :=
  [BookOp.bid 110 1, BookOp.bid 109 1, BookOp.bid 108 1, BookOp.bid 107 1,
   BookOp.bid 106 1, BookOp.bid 105 1, BookOp.bid 104 1, BookOp.bid 103 1,
   BookOp.bid 102 1, BookOp.bid 101 1, BookOp.bid 100 1]

/-! ### Generic lemmas about one book side

The bid and ask update loops are mirror images; the lemmas below are stated
for an arbitrary strict comparison `r` and instantiated at `(· > ·)` (bids)
and `(· < ·)` (asks). -/

theorem prices_cons (l : PriceLevel) (ls : List PriceLevel) :
    prices (l :: ls) = l.price :: prices ls := rfl

theorem prices_nil : prices [] = [] := rfl

theorem prices_append (a b : List PriceLevel) :
    prices (a ++ b) = prices a ++ prices b := List.map_append _ a b

theorem prices_length (ls : List PriceLevel) : (prices ls).length = ls.length :=
  List.length_map ls PriceLevel.price

theorem sideScan_found_prices {r : ℚ → ℚ → Prop} [DecidableRel r] {p q : ℚ}
    {ls t : List PriceLevel} (h : sideScan r p q ls = ScanOut.found t) :
    prices t = prices ls := by
  induction ls generalizing t with
  | nil => simp [sideScan] at h
  | cons l ls ih =>
    by_cases h1 : l.price = p
    · simp only [sideScan, if_pos h1] at h
      injection h with h2
      subst h2
      simp [prices_cons, h1]
    · by_cases h2 : r p l.price
      · simp only [sideScan, if_neg h1, if_pos h2] at h
        exact absurd h (by simp)
      · simp only [sideScan, if_neg h1, if_neg h2] at h
        cases hrec : sideScan r p q ls with
        | found t2 =>
          simp only [hrec] at h
          injection h with h3
          subst h3
          simp [prices_cons, ih hrec]
        | ins t2 => simp [hrec] at h
        | miss => simp [hrec] at h

theorem sideScan_found_mem {r : ℚ → ℚ → Prop} [DecidableRel r] {p q : ℚ}
    {ls t : List PriceLevel} (h : sideScan r p q ls = ScanOut.found t) :
    p ∈ prices ls := by
  induction ls generalizing t with
  | nil => simp [sideScan] at h
  | cons l ls ih =>
    by_cases h1 : l.price = p
    · simp [prices_cons, h1]
    · by_cases h2 : r p l.price
      · simp only [sideScan, if_neg h1, if_pos h2] at h
        exact absurd h (by simp)
      · simp only [sideScan, if_neg h1, if_neg h2] at h
        cases hrec : sideScan r p q ls with
        | found t2 => exact List.mem_cons_of_mem _ (ih hrec)
        | ins t2 => simp [hrec] at h
        | miss => simp [hrec] at h

theorem sideScan_ins_split {r : ℚ → ℚ → Prop} [DecidableRel r] {p q : ℚ}
    {ls t : List PriceLevel} (h : sideScan r p q ls = ScanOut.ins t) :
    ∃ l1 z l2, ls = l1 ++ z :: l2 ∧
      t = l1 ++ { price := p, quantity := q } :: z :: l2 ∧
      (∀ x ∈ l1, x.price ≠ p ∧ ¬ r p x.price) ∧ r p z.price := by
  induction ls generalizing t with
  | nil => simp [sideScan] at h
  | cons l ls ih =>
    by_cases h1 : l.price = p
    · simp [sideScan, if_pos h1] at h
    · by_cases h2 : r p l.price
      · simp only [sideScan, if_neg h1, if_pos h2] at h
        injection h with h3
        subst h3
        exact ⟨[], l, ls, by simp, by simp, by simp, h2⟩
      · simp only [sideScan, if_neg h1, if_neg h2] at h
        cases hrec : sideScan r p q ls with
        | found t2 => simp [hrec] at h
        | ins t2 =>
          simp only [hrec] at h
          injection h with h3
          subst h3
          obtain ⟨l1, z, l2, hls, ht, hall, hz⟩ := ih hrec
          refine ⟨l :: l1, z, l2, by simp [hls], by simp [ht], ?_, hz⟩
          intro x hx
          rcases List.mem_cons.mp hx with rfl | hx2
          · exact ⟨h1, h2⟩
          · exact hall x hx2
        | miss => simp [hrec] at h

theorem sideScan_miss_forall {r : ℚ → ℚ → Prop} [DecidableRel r] {p q : ℚ}
    {ls : List PriceLevel} (h : sideScan r p q ls = ScanOut.miss) :
    ∀ x ∈ ls, x.price ≠ p ∧ ¬ r p x.price := by
  induction ls with
  | nil => simp
  | cons l ls ih =>
    by_cases h1 : l.price = p
    · simp [sideScan, if_pos h1] at h
    · by_cases h2 : r p l.price
      · simp [sideScan, if_neg h1, if_pos h2] at h
      · simp only [sideScan, if_neg h1, if_neg h2] at h
        cases hrec : sideScan r p q ls with
        | found t2 => simp [hrec] at h
        | ins t2 => simp [hrec] at h
        | miss =>
          intro x hx
          rcases List.mem_cons.mp hx with rfl | hx2
          · exact ⟨h1, h2⟩
          · exact ih hrec x hx2

theorem sideScan_found_of_mem (r : ℚ → ℚ → Prop) [DecidableRel r] {p : ℚ} (q : ℚ)
    (hirr : ∀ a : ℚ, ¬ r a a)
    (htrans : ∀ {a b c : ℚ}, r a b → r b c → r a c)
    {ls : List PriceLevel} (hs : (prices ls).Pairwise r) (hmem : p ∈ prices ls) :
    ∃ t, sideScan r p q ls = ScanOut.found t := by
  induction ls with
  | nil => simp [prices_nil] at hmem
  | cons l ls ih =>
    by_cases h1 : l.price = p
    · exact ⟨{ price := p, quantity := q } :: ls, by simp [sideScan, if_pos h1]⟩
    · have hmem2 : p ∈ prices ls := by
        rcases List.mem_cons.mp hmem with h | h
        · exact absurd h.symm h1
        · exact h
      have hhead : r l.price p := (List.pairwise_cons.mp hs).1 p hmem2
      have h2 : ¬ r p l.price := fun hc => hirr p (htrans hc hhead)
      obtain ⟨t, ht⟩ := ih (List.pairwise_cons.mp hs).2 hmem2
      exact ⟨l :: t, by simp only [sideScan, if_neg h1, if_neg h2, ht]⟩

theorem sideUpdate_sorted (r : ℚ → ℚ → Prop) [DecidableRel r] {p q : ℚ}
    (htrans : ∀ {a b c : ℚ}, r a b → r b c → r a c)
    (hconn : ∀ {a b : ℚ}, a ≠ b → ¬ r a b → r b a)
    {ls : List PriceLevel} (hs : (prices ls).Pairwise r) :
    (prices (sideUpdate r p q ls)).Pairwise r := by
  cases hscan : sideScan r p q ls with
  | found t =>
    simp only [sideUpdate, hscan]
    rw [sideScan_found_prices hscan]
    exact hs
  | ins t =>
    simp only [sideUpdate, hscan]
    have hp : (prices t).Pairwise r := by
      obtain ⟨l1, z, l2, hls, ht, hall, hz⟩ := sideScan_ins_split hscan
      subst hls
      subst ht
      simp only [prices_append, prices_cons] at hs ⊢
      rw [List.pairwise_append] at hs ⊢
      obtain ⟨hs1, hs2, hcross⟩ := hs
      refine ⟨hs1, ?_, ?_⟩
      · rw [List.pairwise_cons]
        constructor
        · intro b hb
          rcases List.mem_cons.mp hb with rfl | hb2
          · exact hz
          · exact htrans hz ((List.pairwise_cons.mp hs2).1 b hb2)
        · exact hs2
      · intro a ha b hb
        have hap : r a p := by
          obtain ⟨x, hx, hxa⟩ := List.mem_map.mp ha
          obtain ⟨hne, hnr⟩ := hall x hx
          subst hxa
          exact hconn (Ne.symm hne) hnr
        rcases List.mem_cons.mp hb with rfl | hb2
        · exact hap
        · exact hcross a ha b hb2
    have hsub : (prices (t.take MAX_LEVELS)).Sublist (prices t) :=
      (List.take_sublist _ _).map _
    exact List.Pairwise.sublist hsub hp
  | miss =>
    simp only [sideUpdate, hscan]
    by_cases hl : ls.length < MAX_LEVELS
    · rw [if_pos hl]
      simp only [prices_append]
      rw [List.pairwise_append]
      refine ⟨hs, by simp [prices], ?_⟩
      intro a ha b hb
      simp only [prices_cons, prices_nil, List.mem_singleton] at hb
      subst hb
      obtain ⟨x, hx, hxa⟩ := List.mem_map.mp ha
      obtain ⟨hne, hnr⟩ := sideScan_miss_forall hscan x hx
      subst hxa
      exact hconn (Ne.symm hne) hnr
    · rw [if_neg hl]
      exact hs

theorem sideUpdate_length_le {r : ℚ → ℚ → Prop} [DecidableRel r] {p q : ℚ}
    {ls : List PriceLevel} (hlen : ls.length ≤ MAX_LEVELS) :
    (sideUpdate r p q ls).length ≤ MAX_LEVELS := by
  cases hscan : sideScan r p q ls with
  | found t =>
    simp only [sideUpdate, hscan]
    have := congrArg List.length (sideScan_found_prices hscan)
    simp only [prices_length] at this
    omega
  | ins t =>
    simp only [sideUpdate, hscan]
    rw [List.length_take]
    omega
  | miss =>
    simp only [sideUpdate, hscan]
    by_cases hl : ls.length < MAX_LEVELS
    · rw [if_pos hl]
      simp only [List.length_append, List.length_cons, List.length_nil]
      omega
    · rw [if_neg hl]
      exact hlen

theorem sideUpdate_length_existing (r : ℚ → ℚ → Prop) [DecidableRel r] {p q : ℚ}
    (hirr : ∀ a : ℚ, ¬ r a a)
    (htrans : ∀ {a b c : ℚ}, r a b → r b c → r a c)
    {ls : List PriceLevel} (hs : (prices ls).Pairwise r) (hmem : p ∈ prices ls) :
    (sideUpdate r p q ls).length = ls.length := by
  obtain ⟨t, ht⟩ := sideScan_found_of_mem r q hirr htrans hs hmem
  simp only [sideUpdate, ht]
  have := congrArg List.length (sideScan_found_prices ht)
  simpa only [prices_length] using this

theorem sideScan_ins_length {r : ℚ → ℚ → Prop} [DecidableRel r] {p q : ℚ}
    {ls t : List PriceLevel} (h : sideScan r p q ls = ScanOut.ins t) :
    t.length = ls.length + 1 := by
  obtain ⟨l1, z, l2, hls, ht, _, _⟩ := sideScan_ins_split h
  subst hls ht
  simp only [List.length_append, List.length_cons]
  omega

theorem sideUpdate_length_new_room {r : ℚ → ℚ → Prop} [DecidableRel r] {p q : ℚ}
    {ls : List PriceLevel} (hmem : p ∉ prices ls) (hlen : ls.length < MAX_LEVELS) :
    (sideUpdate r p q ls).length = ls.length + 1 := by
  cases hscan : sideScan r p q ls with
  | found t => exact absurd (sideScan_found_mem hscan) hmem
  | ins t =>
    simp only [sideUpdate, hscan]
    rw [List.length_take, sideScan_ins_length hscan]
    omega
  | miss =>
    simp only [sideUpdate, hscan]
    rw [if_pos hlen]
    simp

theorem sideUpdate_length_new_full {r : ℚ → ℚ → Prop} [DecidableRel r] {p q : ℚ}
    {ls : List PriceLevel} (hmem : p ∉ prices ls) (hlen : ls.length = MAX_LEVELS) :
    (sideUpdate r p q ls).length = MAX_LEVELS := by
  cases hscan : sideScan r p q ls with
  | found t => exact absurd (sideScan_found_mem hscan) hmem
  | ins t =>
    simp only [sideUpdate, hscan]
    rw [List.length_take, sideScan_ins_length hscan, hlen]
    omega
  | miss =>
    simp only [sideUpdate, hscan]
    rw [if_neg (by omega)]
    exact hlen

/-! ### Instantiation of the side lemmas at the bid and ask orders -/

theorem gt_trans_rule : ∀ {a b c : ℚ}, a > b → b > c → a > c :=
  fun hab hbc => lt_trans hbc hab

theorem gt_conn_rule : ∀ {a b : ℚ}, a ≠ b → ¬ a > b → b > a :=
  fun hne hnr => lt_of_le_of_ne (le_of_not_lt hnr) hne

theorem gt_irr_rule : ∀ a : ℚ, ¬ a > a := fun a => lt_irrefl a

theorem lt_trans_rule : ∀ {a b c : ℚ}, a < b → b < c → a < c :=
  fun hab hbc => lt_trans hab hbc

theorem lt_conn_rule : ∀ {a b : ℚ}, a ≠ b → ¬ a < b → b < a :=
  fun hne hnr => lt_of_le_of_ne (le_of_not_lt hnr) (Ne.symm hne)

theorem lt_irr_rule : ∀ a : ℚ, ¬ a < a := fun a => lt_irrefl a

/-- The `BookSide` invariants of the spec: strict price ordering and the
depth bound. Bids use `(· > ·)` (descending), asks `(· < ·)` (ascending). -/
def goodBook (b : Book) : Prop :=
  (prices b.bids).Pairwise (· > ·) ∧ b.bids.length ≤ MAX_LEVELS ∧
  (prices b.asks).Pairwise (· < ·) ∧ b.asks.length ≤ MAX_LEVELS

theorem goodBook_empty : goodBook Book.empty := by
  refine ⟨List.Pairwise.nil, ?_, List.Pairwise.nil, ?_⟩ <;> simp [Book.empty, MAX_LEVELS]

theorem goodBook_applyOp {b : Book} (hb : goodBook b) (op : BookOp) :
    goodBook (b.applyOp op) := by
  obtain ⟨h1, h2, h3, h4⟩ := hb
  cases op with
  | bid p q =>
    simp only [Book.applyOp, Book.update_bid]
    exact ⟨sideUpdate_sorted (· > ·) gt_trans_rule gt_conn_rule h1, sideUpdate_length_le h2, h3, h4⟩
  | ask p q =>
    simp only [Book.applyOp, Book.update_ask]
    exact ⟨h1, h2, sideUpdate_sorted (· < ·) lt_trans_rule lt_conn_rule h3, sideUpdate_length_le h4⟩

theorem goodBook_foldl (ops : List BookOp) :
    ∀ b : Book, goodBook b → goodBook (ops.foldl Book.applyOp b) := by
  induction ops with
  | nil => exact fun b hb => hb
  | cons op ops ih => exact fun b hb => ih _ (goodBook_applyOp hb op)

/-- C3: after any sequence of `update_bid`/`update_ask` calls starting from an
empty book, the bid levels in positions `[0, count)` are strictly descending in
price, the ask levels strictly ascending, neither side has two levels with the
same price, and each side has `count ≤ MAX_LEVELS = 10`. -/
theorem claim_C3_book_invariant (ops : List BookOp) :
    ((prices (Book.applyOps ops).bids).Pairwise (· > ·) ∧
      (prices (Book.applyOps ops).bids).Nodup ∧
      (Book.applyOps ops).bids.length ≤ MAX_LEVELS) ∧
    ((prices (Book.applyOps ops).asks).Pairwise (· < ·) ∧
      (prices (Book.applyOps ops).asks).Nodup ∧
      (Book.applyOps ops).asks.length ≤ MAX_LEVELS) := by
  obtain ⟨h1, h2, h3, h4⟩ := goodBook_foldl ops Book.empty goodBook_empty
  exact ⟨⟨h1, List.Pairwise.imp (fun hab => ne_of_gt hab) h1, h2⟩,
         ⟨h3, List.Pairwise.imp (fun hab => ne_of_lt hab) h3, h4⟩⟩

/-- C5: on a sorted side, updating an existing price preserves the level
count; a new price increments the count when the side is not full and leaves
the count at `MAX_LEVELS` when it is full; and (scenario S3) inserting the
11 strictly descending bids 110..100 into an empty book yields exactly 10
levels with the smallest price 100 absent. -/
theorem claim_C5_count_behavior :
    (∀ (p q : ℚ) (ls : List PriceLevel), (prices ls).Pairwise (· > ·) →
      ((p ∈ prices ls → (sideUpdate (· > ·) p q ls).length = ls.length) ∧
       (p ∉ prices ls → ls.length < MAX_LEVELS →
         (sideUpdate (· > ·) p q ls).length = ls.length + 1) ∧
       (p ∉ prices ls → ls.length = MAX_LEVELS →
         (sideUpdate (· > ·) p q ls).length = MAX_LEVELS))) ∧
    (∀ (p q : ℚ) (ls : List PriceLevel), (prices ls).Pairwise (· < ·) →
      ((p ∈ prices ls → (sideUpdate (· < ·) p q ls).length = ls.length) ∧
       (p ∉ prices ls → ls.length < MAX_LEVELS →
         (sideUpdate (· < ·) p q ls).length = ls.length + 1) ∧
       (p ∉ prices ls → ls.length = MAX_LEVELS →
         (sideUpdate (· < ·) p q ls).length = MAX_LEVELS))) ∧
    ((Book.applyOps s3Ops).bids.length = MAX_LEVELS ∧
      (100 : ℚ) ∉ prices (Book.applyOps s3Ops).bids) := by
  refine ⟨?_, ?_, ?_⟩
  · intro p q ls hs
    exact ⟨fun hmem => sideUpdate_length_existing (· > ·) gt_irr_rule gt_trans_rule hs hmem,
           fun hmem hlen => sideUpdate_length_new_room hmem hlen,
           fun hmem hlen => sideUpdate_length_new_full hmem hlen⟩
  · intro p q ls hs
    exact ⟨fun hmem => sideUpdate_length_existing (· < ·) lt_irr_rule lt_trans_rule hs hmem,
           fun hmem hlen => sideUpdate_length_new_room hmem hlen,
           fun hmem hlen => sideUpdate_length_new_full hmem hlen⟩
  · constructor <;>
      norm_num [Book.applyOps, s3Ops, Book.applyOp, Book.empty, Book.update_bid,
        sideUpdate, sideScan, MAX_LEVELS, prices]

/-- Witness for C5: concrete instances of the three count facts on the bid
side, discharged at small sorted sides. -/
theorem claim_C5_count_behavior_witness :
    (sideUpdate (· > ·) 100 5 [{ price := 100, quantity := 1 }]).length = 1 ∧
    (sideUpdate (· > ·) 101 1 [{ price := 100, quantity := 1 }]).length = 2 ∧
    (sideUpdate (· < ·) 99 1 [{ price := 100, quantity := 1 }]).length = 2 := by
  refine ⟨?_, ?_, ?_⟩
  · exact (claim_C5_count_behavior.1 100 5 [{ price := 100, quantity := 1 }]
      (by simp [prices])).1 (by simp [prices])
  · exact (claim_C5_count_behavior.1 101 1 [{ price := 100, quantity := 1 }]
      (by simp [prices])).2.1 (by norm_num [prices]) (by simp [MAX_LEVELS])
  · exact (claim_C5_count_behavior.2.1 99 1 [{ price := 100, quantity := 1 }]
      (by simp [prices])).2.1 (by norm_num [prices]) (by simp [MAX_LEVELS])

/-! ### Detector lemmas -/

theorem mem_directedCheck {minBps : ℚ} {sym : String} {a b : String × Book}
    {o : ArbitrageOpportunity} :
    o ∈ directedCheck minBps sym a b ↔
      (0 < bestAsk a.2 ∧ 0 < bestBid b.2 ∧ bestAsk a.2 < bestBid b.2 ∧
        minBps ≤ (bestBid b.2 - bestAsk a.2) / bestAsk a.2 * 10000) ∧
      o = mkOpportunity sym a.1 b.1 (bestAsk a.2) (bestBid b.2) := by
  simp only [directedCheck]
  split
  · next h => simp only [List.mem_singleton]; exact ⟨fun ho => ⟨h, ho⟩, fun ⟨_, ho⟩ => ho⟩
  · next h => simp only [List.not_mem_nil, false_iff]; exact fun ⟨hc, _⟩ => h hc

theorem mem_innerPairs {minBps : ℚ} {sym : String} {v : String × Book}
    {ws : List (String × Book)} {o : ArbitrageOpportunity} :
    o ∈ innerPairs minBps sym v ws ↔
      ∃ w ∈ ws, o ∈ directedCheck minBps sym v w ∨ o ∈ directedCheck minBps sym w v := by
  induction ws with
  | nil => simp [innerPairs]
  | cons w ws ih =>
    simp only [innerPairs, List.mem_append, ih]
    constructor
    · rintro ((h | h) | ⟨x, hx, hdir⟩)
      · exact ⟨w, List.mem_cons_self w ws, Or.inl h⟩
      · exact ⟨w, List.mem_cons_self w ws, Or.inr h⟩
      · exact ⟨x, List.mem_cons_of_mem w hx, hdir⟩
    · rintro ⟨x, hx, hdir⟩
      rcases List.mem_cons.mp hx with rfl | hx2
      · rcases hdir with h | h
        · exact Or.inl (Or.inl h)
        · exact Or.inl (Or.inr h)
      · exact Or.inr ⟨x, hx2, hdir⟩

theorem mem_pairSweep {minBps : ℚ} {sym : String} {vs : List (String × Book)}
    {o : ArbitrageOpportunity} :
    o ∈ pairSweep minBps sym vs ↔
      ∃ x y, List.Sublist [x, y] vs ∧
        (o ∈ directedCheck minBps sym x y ∨ o ∈ directedCheck minBps sym y x) := by
  induction vs with
  | nil =>
    simp only [pairSweep, List.not_mem_nil, false_iff]
    rintro ⟨x, y, hsub, -⟩
    simpa using hsub.length_le
  | cons v vs ih =>
    simp only [pairSweep, List.mem_append, ih, mem_innerPairs]
    constructor
    · rintro (⟨w, hw, hdir⟩ | ⟨x, y, hsub, hdir⟩)
      · exact ⟨v, w, (List.singleton_sublist.mpr hw).cons₂ v, hdir⟩
      · exact ⟨x, y, hsub.cons v, hdir⟩
    · rintro ⟨x, y, hsub, hdir⟩
      cases hsub with
      | cons _ h => exact Or.inr ⟨x, y, h, hdir⟩
      | cons₂ _ h => exact Or.inl ⟨y, List.singleton_sublist.mp h, hdir⟩

theorem pairSweep_short {minBps : ℚ} {sym : String} {vs : List (String × Book)}
    (h : vs.length < 2) : pairSweep minBps sym vs = [] := by
  match vs with
  | [] => rfl
  | [v] => rfl
  | v :: w :: t =>
    simp only [List.length_cons] at h
    omega

theorem checkVenues_eq_pairSweep (minBps : ℚ) (sym : String)
    (vs : List (String × Book)) : checkVenues minBps sym vs = pairSweep minBps sym vs := by
  unfold checkVenues
  split
  · next h => exact (pairSweep_short h).symm
  · rfl

theorem sublist_pair_cover {α : Type} {a b : α} {l : List α}
    (ha : a ∈ l) (hb : b ∈ l) (hne : a ≠ b) :
    List.Sublist [a, b] l ∨ List.Sublist [b, a] l := by
  induction l with
  | nil => simp at ha
  | cons x xs ih =>
    rcases List.mem_cons.mp ha with rfl | ha2
    · rcases List.mem_cons.mp hb with rfl | hb2
      · exact absurd rfl hne
      · exact Or.inl ((List.singleton_sublist.mpr hb2).cons₂ a)
    · rcases List.mem_cons.mp hb with rfl | hb2
      · exact Or.inr ((List.singleton_sublist.mpr ha2).cons₂ b)
      · rcases ih ha2 hb2 with h | h
        · exact Or.inl (h.cons x)
        · exact Or.inr (h.cons x)

theorem keyUnique {β : Type} {l : List (String × β)} (hnd : (l.map Prod.fst).Nodup)
    {k : String} {v w : β} (hv : (k, v) ∈ l) (hw : (k, w) ∈ l) : v = w := by
  induction l with
  | nil => simp at hv
  | cons e es ih =>
    simp only [List.map_cons, List.nodup_cons] at hnd
    rcases List.mem_cons.mp hv with hv1 | hv2
    · rcases List.mem_cons.mp hw with hw1 | hw2
      · rw [← hv1] at hw1
        exact (Prod.mk.injEq _ _ _ _).mp hw1.symm |>.2
      · exfalso
        refine hnd.1 ?_
        have hk : k ∈ List.map Prod.fst es := List.mem_map_of_mem Prod.fst hw2
        rw [← hv1]
        exact hk
    · rcases List.mem_cons.mp hw with hw1 | hw2
      · exfalso
        refine hnd.1 ?_
        have hk : k ∈ List.map Prod.fst es := List.mem_map_of_mem Prod.fst hv2
        rw [← hw1]
        exact hk
      · exact ih hnd.2 hv2 hw2

theorem bestAsk_pos_of_nonempty {b : Book} (h : b.asks ≠ [])
    (hp : ∀ l ∈ b.asks, 0 < l.price) : 0 < bestAsk b := by
  cases has : b.asks with
  | nil => exact absurd has h
  | cons l t =>
    have := hp l (by rw [has]; exact List.mem_cons_self l t)
    simpa [bestAsk, has] using this

theorem bestBid_pos_of_nonempty {b : Book} (h : b.bids ≠ [])
    (hp : ∀ l ∈ b.bids, 0 < l.price) : 0 < bestBid b := by
  cases has : b.bids with
  | nil => exact absurd has h
  | cons l t =>
    have := hp l (by rw [has]; exact List.mem_cons_self l t)
    simpa [bestBid, has] using this

theorem asks_nonempty_of_bestAsk_pos {b : Book} (h : 0 < bestAsk b) : b.asks ≠ [] := by
  intro hnil
  rw [bestAsk, hnil] at h
  exact lt_irrefl 0 h

theorem bids_nonempty_of_bestBid_pos {b : Book} (h : 0 < bestBid b) : b.bids ≠ [] := by
  intro hnil
  rw [bestBid, hnil] at h
  exact lt_irrefl 0 h

/-- C2: for a registered symbol, `check_arbitrage` emits an opportunity with
buy venue `A` and sell venue `B` exactly when both relevant sides are
non-empty, B's best bid exceeds A's best ask, and the profit in basis points
reaches `min_profit_bps`; with fewer than two registered venues the result is
empty. Venue names are unique (`unordered_map` keys) and prices positive
(non-positive prices are declared caller errors by the spec). -/
theorem claim_C2_detector_emission (d : Detector) (sym : String)
    (venues : List (String × Book)) (hv : lookupKey sym d.books = some venues) :
    (venues.length < 2 → d.check_arbitrage sym = []) ∧
    (∀ A B bA bB, (venues.map Prod.fst).Nodup →
      (∀ vb ∈ venues, (∀ l ∈ vb.2.asks, 0 < l.price) ∧ (∀ l ∈ vb.2.bids, 0 < l.price)) →
      (A, bA) ∈ venues → (B, bB) ∈ venues → A ≠ B →
      ((∃ o ∈ d.check_arbitrage sym, o.buy_exchange = A ∧ o.sell_exchange = B) ↔
        (bA.asks ≠ [] ∧ bB.bids ≠ [] ∧ bestAsk bA < bestBid bB ∧
          d.min_profit_bps ≤ (bestBid bB - bestAsk bA) / bestAsk bA * 10000))) := by
  have hcheck : d.check_arbitrage sym = pairSweep d.min_profit_bps sym venues := by
    simp only [Detector.check_arbitrage, hv, checkVenues_eq_pairSweep]
  constructor
  · intro h2
    rw [hcheck, pairSweep_short h2]
  · intro A B bA bB hnd hpos hA hB hAB
    rw [hcheck]
    constructor
    · rintro ⟨o, ho, hbuy, hsell⟩
      obtain ⟨x, y, hsub, hdir⟩ := mem_pairSweep.mp ho
      have hx : x ∈ venues := hsub.subset (List.mem_cons_self x [y])
      have hy : y ∈ venues := hsub.subset (List.mem_cons_of_mem x (List.mem_cons_self y []))
      rcases hdir with hdir | hdir
      · obtain ⟨⟨hp1, hp2, hlt, hth⟩, rfl⟩ := mem_directedCheck.mp hdir
        simp only [mkOpportunity] at hbuy hsell
        have hxA : x.2 = bA := by
          refine keyUnique hnd ?_ hA
          rw [← hbuy]
          exact (Prod.mk.eta (p := x)) ▸ hx
        have hyB : y.2 = bB := by
          refine keyUnique hnd ?_ hB
          rw [← hsell]
          exact (Prod.mk.eta (p := y)) ▸ hy
        rw [hxA] at hp1 hlt hth
        rw [hyB] at hp2 hlt hth
        exact ⟨asks_nonempty_of_bestAsk_pos hp1, bids_nonempty_of_bestBid_pos hp2, hlt, hth⟩
      · obtain ⟨⟨hp1, hp2, hlt, hth⟩, rfl⟩ := mem_directedCheck.mp hdir
        simp only [mkOpportunity] at hbuy hsell
        have hyA : y.2 = bA := by
          refine keyUnique hnd ?_ hA
          rw [← hbuy]
          exact (Prod.mk.eta (p := y)) ▸ hy
        have hxB : x.2 = bB := by
          refine keyUnique hnd ?_ hB
          rw [← hsell]
          exact (Prod.mk.eta (p := x)) ▸ hx
        rw [hyA] at hp1 hlt hth
        rw [hxB] at hp2 hlt hth
        exact ⟨asks_nonempty_of_bestAsk_pos hp1, bids_nonempty_of_bestBid_pos hp2, hlt, hth⟩
    · rintro ⟨hane, hbne, hlt, hth⟩
      have hp1 : 0 < bestAsk bA := bestAsk_pos_of_nonempty hane (hpos (A, bA) hA).1
      have hp2 : 0 < bestBid bB := bestBid_pos_of_nonempty hbne (hpos (B, bB) hB).2
      have hne : (A, bA) ≠ (B, bB) := fun h => hAB (congrArg Prod.fst h)
      refine ⟨mkOpportunity sym A B (bestAsk bA) (bestBid bB), ?_, by simp [mkOpportunity],
        by simp [mkOpportunity]⟩
      have hdc : mkOpportunity sym A B (bestAsk bA) (bestBid bB) ∈
          directedCheck d.min_profit_bps sym (A, bA) (B, bB) :=
        mem_directedCheck.mpr ⟨⟨hp1, hp2, hlt, hth⟩, rfl⟩
      rcases sublist_pair_cover hA hB hne with hsub | hsub
      · exact mem_pairSweep.mpr ⟨(A, bA), (B, bB), hsub, Or.inl hdc⟩
      · exact mem_pairSweep.mpr ⟨(B, bB), (A, bA), hsub, Or.inr hdc⟩

/-! ### Concrete evaluations of the S4 books -/

theorem s4BookA_eval : s4BookA =
    { bids := [{ price := 999/10, quantity := 1 }],
      asks := [{ price := 100, quantity := 1 }] } := by
  norm_num [s4BookA, Book.empty, Book.update_bid, Book.update_ask, sideUpdate, sideScan,
    MAX_LEVELS]

theorem s4BookB_eval : s4BookB =
    { bids := [{ price := 201/2, quantity := 1 }],
      asks := [{ price := 503/5, quantity := 1 }] } := by
  norm_num [s4BookB, Book.empty, Book.update_bid, Book.update_ask, sideUpdate, sideScan,
    MAX_LEVELS]

/-- Witness for C2: the emission criterion instantiated at the concrete S4
registry, with every hypothesis discharged on concrete data. -/
theorem claim_C2_detector_emission_witness :
    ((∃ o ∈ s4Detector.check_arbitrage "BTC",
        o.buy_exchange = "A" ∧ o.sell_exchange = "B") ↔
      (s4BookA.asks ≠ [] ∧ s4BookB.bids ≠ [] ∧ bestAsk s4BookA < bestBid s4BookB ∧
        s4Detector.min_profit_bps ≤
          (bestBid s4BookB - bestAsk s4BookA) / bestAsk s4BookA * 10000)) :=
  (claim_C2_detector_emission s4Detector "BTC" s4Venues
      (by norm_num [s4Detector, lookupKey])).2
    "A" "B" s4BookA s4BookB
    (by decide)
    (by
      intro vb hvb
      rcases List.mem_cons.mp hvb with rfl | hvb2
      · rw [s4BookA_eval]
        norm_num
      · rcases List.mem_cons.mp hvb2 with rfl | hvb3
        · rw [s4BookB_eval]
          norm_num
        · simp at hvb3)
    (by simp [s4Venues])
    (by simp [s4Venues])
    (by decide)

/-! ### Risk manager claims -/

/-- The state component of `assess_opportunity`: only the opportunity
counters move. -/
theorem assess_opportunity_fst (st : RiskState) (opp : ArbitrageOpportunity) :
    (assess_opportunity st opp).1 =
      { st with opportunities_seen := st.opportunities_seen + 1 } ∨
    (assess_opportunity st opp).1 =
      { st with
          opportunities_seen := st.opportunities_seen + 1
          opportunities_taken := st.opportunities_taken + 1 } := by
  unfold assess_opportunity
  dsimp only
  split
  · exact Or.inl rfl
  · split
    · exact Or.inl rfl
    · split
      · exact Or.inl rfl
      · split
        · exact Or.inl rfl
        · exact Or.inr rfl

/-- C8: `assess_opportunity` leaves the position map, the trade ledger,
`daily_pnl`, `total_pnl`, `max_balance` and `next_trade_id` unchanged; in
this functional model the assessment returned is by construction a function
of the risk state at call time and the opportunity alone, and only the
opportunity counters move. -/
theorem claim_C8_assess_frame (st : RiskState) (opp : ArbitrageOpportunity) :
    (assess_opportunity st opp).1.positions = st.positions ∧
    (assess_opportunity st opp).1.trade_history = st.trade_history ∧
    (assess_opportunity st opp).1.daily_pnl = st.daily_pnl ∧
    (assess_opportunity st opp).1.total_pnl = st.total_pnl ∧
    (assess_opportunity st opp).1.max_balance = st.max_balance ∧
    (assess_opportunity st opp).1.next_trade_id = st.next_trade_id := by
  rcases assess_opportunity_fst st opp with h | h <;> rw [h] <;>
    exact ⟨rfl, rfl, rfl, rfl, rfl, rfl⟩

/-- C9: `execute_trade` returns `true` on every input: the function has no
failure branch, so its boolean result never reports an error. -/
theorem claim_C9_execute_returns_true (st : RiskState) (opp : ArbitrageOpportunity)
    (size : ℚ) : (execute_trade st opp size).2 = true := rfl

/-- C1 divergence at the S6 input: executing the S4 opportunity at size 0.1
from the fresh risk state yields quantities +0.1 and −0.1, gross P&L 0.05,
fees 0.02005, net P&L 0.02995 added to `total_pnl`, and advances the trade id
— but both freshly opened positions keep `avg_price = 0` rather than the
claimed 100 and 100.50: for a position opened from `quantity = 0`, the
same-direction test of `update_position` is false and the flip test is also
false, so `avg_price` is never assigned. -/
theorem claim_C1_execute_s6_behavior :
    lookupKey "A_BTC" s6Exec.positions =
      some { exchange := "A", symbol := "BTC", quantity := 1/10, avg_price := 0 } ∧
    lookupKey "B_BTC" s6Exec.positions =
      some { exchange := "B", symbol := "BTC", quantity := -(1/10), avg_price := 0 } ∧
    s6Exec.trade_history = [mkTrade 1 s4Opp (1/10)] ∧
    (mkTrade 1 s4Opp (1/10)).gross_pnl = 1/20 ∧
    (mkTrade 1 s4Opp (1/10)).fees = 401/20000 ∧
    (mkTrade 1 s4Opp (1/10)).net_pnl = 599/20000 ∧
    s6Exec.total_pnl = 599/20000 ∧
    s6Exec.next_trade_id = 2 := by
  have h1 : "A" ++ "_" ++ "BTC" = "A_BTC" := rfl
  have h2 : "B" ++ "_" ++ "BTC" = "B_BTC" := rfl
  have h3 : ¬ "A_BTC" = "B_BTC" := by decide
  norm_num [s6Exec, execute_trade, initialRiskState, s4Opp, mkOpportunity, mkTrade,
    FEE_RATE, update_position, upsertKey, positionApply, Position.default, lookupKey,
    h1, h2, h3]

/-- The risk state after executing the S4 opportunity at size 0.1 once. -/
def c4State1 : RiskState := (execute_trade initialRiskState s4Opp (1/10)).1

/-- The risk state after executing the S4 opportunity at size 0.1 twice. -/
def c4State2 : RiskState := (execute_trade c4State1 s4Opp (1/10)).1

/-- Counterexample to C4: after the second profitable execution,
`max_balance` is `prior max_balance + total_pnl` (compounding), not
`max(prior, 10000 + total_pnl)` as claimed: the code bases `current_balance`
on the mutated `max_balance_`, not on the starting balance. -/
theorem claim_C4_counterexample :
    c4State2.max_balance ≠ max c4State1.max_balance (10000 + c4State2.total_pnl) ∧
    c4State1.max_balance = 10000 + 599/20000 ∧
    c4State2.total_pnl = 599/10000 ∧
    c4State2.max_balance = 10000 + 1797/20000 := by
  have h1 : "A" ++ "_" ++ "BTC" = "A_BTC" := rfl
  have h2 : "B" ++ "_" ++ "BTC" = "B_BTC" := rfl
  norm_num [c4State2, c4State1, execute_trade, initialRiskState, s4Opp, mkOpportunity,
    mkTrade, FEE_RATE, update_position, upsertKey, positionApply, Position.default,
    h1, h2]

/-- C4 (amended): after every `execute_trade`, `max_balance` equals the
maximum of its prior value and the prior value plus the updated `total_pnl`
(the code uses the current `max_balance`, not the initial balance, as the
base of `current_balance`); in particular `max_balance` never decreases. -/
theorem claim_C4_amended (st : RiskState) (opp : ArbitrageOpportunity) (size : ℚ) :
    (execute_trade st opp size).1.max_balance =
      max st.max_balance (st.max_balance + (execute_trade st opp size).1.total_pnl) ∧
    st.max_balance ≤ (execute_trade st opp size).1.max_balance := by
  have h1 : (execute_trade st opp size).1.total_pnl =
      st.total_pnl + (mkTrade st.next_trade_id opp size).net_pnl := rfl
  have h2 : (execute_trade st opp size).1.max_balance =
      (if st.max_balance + (st.total_pnl + (mkTrade st.next_trade_id opp size).net_pnl)
          > st.max_balance
       then st.max_balance + (st.total_pnl + (mkTrade st.next_trade_id opp size).net_pnl)
       else st.max_balance) := rfl
  rw [h1, h2]
  constructor
  · split
    · next h => exact (max_eq_right (le_of_lt h)).symm
    · next h => exact (max_eq_left (not_lt.mp h)).symm
  · split
    · next h => exact le_of_lt h
    · exact le_refl _

/-- C6 (scenario S4): with venue A at ask 100.00 and venue B at bid 100.50
and `min_profit_bps = 5`, the detector emits exactly the one opportunity
buy A at 100 / sell B at 100.50 with `profit_bps = 50`; on the fresh risk
state the assessor approves it with `recommended_size = 0.5 ≤ 0.5` and
`net_profit_bps = 29.95 ≈ 30`. -/
theorem claim_C6_s4_detect_and_assess :
    s4Detector.check_arbitrage "BTC" = [s4Opp] ∧
    s4Opp.buy_exchange = "A" ∧ s4Opp.sell_exchange = "B" ∧
    s4Opp.buy_price = 100 ∧ s4Opp.sell_price = 201/2 ∧ s4Opp.profit_bps = 50 ∧
    (assess_opportunity initialRiskState s4Opp).2.decision = RiskDecision.APPROVED ∧
    (assess_opportunity initialRiskState s4Opp).2.recommended_size = 1/2 ∧
    (assess_opportunity initialRiskState s4Opp).2.net_profit_bps = 599/20 ∧
    |(assess_opportunity initialRiskState s4Opp).2.net_profit_bps - 30| ≤ 1/10 := by
  refine ⟨?_, ?_⟩
  · norm_num [s4Detector, s4Venues, s4BookA, s4BookB, Book.empty, Book.update_bid,
      Book.update_ask, sideUpdate, sideScan, MAX_LEVELS, bestBid, bestAsk,
      Detector.check_arbitrage, checkVenues, pairSweep, innerPairs, directedCheck,
      mkOpportunity, lookupKey, s4Opp]
  · norm_num [assess_opportunity, initialRiskState, s4Opp, mkOpportunity, mkTrade,
      FEE_RATE, calculate_max_size_by_position, calculate_max_size_by_exposure,
      REFERENCE_PRICE, lookupKey]
    rw [abs_of_nonneg (by norm_num : (0:ℚ) ≤ 1/20)]
    norm_num

/-- C10: `get_best_bid_ask` returns the sentinel 0.0 for an empty side (not
an absent value); `get_spread` and `get_mid_price` return 0.0 whenever either
side is empty; and every opportunity the detector emits passed the
`ask > 0` / `bid > 0` guards, so empty sides (best price 0) never produce
opportunities. -/
theorem claim_C10_empty_sentinel :
    (∀ b : Book, b.bids = [] → (Book.get_best_bid_ask b).1 = 0) ∧
    (∀ b : Book, b.asks = [] → (Book.get_best_bid_ask b).2 = 0) ∧
    (∀ b : Book, b.bids = [] ∨ b.asks = [] →
      Book.get_spread b = 0 ∧ Book.get_mid_price b = 0) ∧
    (∀ (d : Detector) (sym : String) (o : ArbitrageOpportunity),
      o ∈ d.check_arbitrage sym → 0 < o.buy_price ∧ 0 < o.sell_price) := by
  refine ⟨?_, ?_, ?_, ?_⟩
  · intro b hb
    simp [Book.get_best_bid_ask, bestBid, hb]
  · intro b hb
    simp [Book.get_best_bid_ask, bestAsk, hb]
  · intro b hb
    rcases hb with hb | hb
    · have hzero : bestBid b = 0 := by simp [bestBid, hb]
      constructor <;> simp [Book.get_spread, Book.get_mid_price, hzero]
    · have hzero : bestAsk b = 0 := by simp [bestAsk, hb]
      constructor <;> simp [Book.get_spread, Book.get_mid_price, hzero]
  · intro d sym o ho
    cases hl : lookupKey sym d.books with
    | none => simp only [Detector.check_arbitrage, hl, List.not_mem_nil] at ho
    | some venues =>
      simp only [Detector.check_arbitrage, hl, checkVenues_eq_pairSweep] at ho
      obtain ⟨x, y, hsub, hdir | hdir⟩ := mem_pairSweep.mp ho
      · obtain ⟨⟨hp1, hp2, -, -⟩, rfl⟩ := mem_directedCheck.mp hdir
        exact ⟨hp1, hp2⟩
      · obtain ⟨⟨hp1, hp2, -, -⟩, rfl⟩ := mem_directedCheck.mp hdir
        exact ⟨hp1, hp2⟩

/-- Witness for C10: the sentinel and guard facts at a concrete book with an
empty bid side. -/
theorem claim_C10_empty_sentinel_witness :
    (Book.get_best_bid_ask { bids := [], asks := [{ price := 5, quantity := 1 }] }).1 = 0 ∧
    Book.get_spread { bids := [], asks := [{ price := 5, quantity := 1 }] } = 0 ∧
    Book.get_mid_price { bids := [], asks := [{ price := 5, quantity := 1 }] } = 0 :=
  ⟨claim_C10_empty_sentinel.1 _ rfl,
   (claim_C10_empty_sentinel.2.2.1 _ (Or.inl rfl)).1,
   (claim_C10_empty_sentinel.2.2.1 _ (Or.inl rfl)).2⟩

end ArbiSim
